import Mathlib

/-!
Shallow embedding of `src/warp_command.py` (class `WarpLogAnalyzer`).

The Python module scans a terminal log, extracts an ISO-like timestamp from
each line (regex `(\d{4}-\d{2}-\d{2}T\d{2}:\d{2}:\d{2})`, validated by
`datetime.fromisoformat`), keeps lines whose date equals the target day,
classifies each such line by the first matching command regex from an ordered
dict, and aggregates the collected events into frequency counts, first/last
events, insight messages and a productivity score.

The regexes are embedded semantically over `List Char`: each pattern gets an
executable matcher equivalent to `re.search` truthiness on that pattern
(`\s`, `\w`, `\d` are modelled by their ASCII classes; the log lines at issue
are ASCII).  Floating-point arithmetic on the score is modelled over `ℚ`
(0.5 and 0.8 taken exactly).
-/

/-- ASCII model of the Python regex class `\s`. -/
def wsChar (c : Char) : Bool :=
  c = ' ' || c = '\t' || c = '\n' || c = '\r' || c = '\x0b' || c = '\x0c'

/-- ASCII model of the Python regex class `\w` (used by `\b`). -/
def isWordChar (c : Char) : Bool :=
  c.isAlphanum || c = '_'

/-- Strip a literal char sequence from the front; `none` when it is not a prefix. -/
def stripLit : List Char → List Char → Option (List Char)
  | [], rest => some rest
  | _ :: _, [] => none
  | p :: ps, c :: cs => if c = p then stripLit ps cs else none

/-- Regex `\s+`: at least one whitespace char, consumed greedily.  Greedy is
equivalent to backtracking here because nothing that follows `\s+` in any of
the source's patterns can start with a whitespace char. -/
def dropWs1 : List Char → Option (List Char)
  | [] => none
  | c :: cs => if wsChar c then some (cs.dropWhile wsChar) else none

/-- A literal followed by `\s+` matches at the front of the suffix. -/
def litThenWs (lit : List Char) (l : List Char) : Bool :=
  match stripLit lit l with
  | some r => (dropWs1 r).isSome
  | none => false

def cargoLit : List Char := "cargo".toList

def cargoAlts : List (List Char) :=
  ["build".toList, "run".toList, "test".toList, "check".toList, "clippy".toList]

def gitLit : List Char := "git".toList

def gitAlts : List (List Char) :=
  ["add".toList, "commit".toList, "push".toList, "pull".toList,
   "status".toList, "diff".toList, "log".toList]

def vimLit : List Char := "vim".toList

def nvimLit : List Char := "nvim".toList

def codeLit : List Char := "code".toList

def lsLit : List Char := "ls".toList

def cdLit : List Char := "cd".toList

def grepLit : List Char := "grep".toList

def findLit : List Char := "find".toList

def catLit : List Char := "cat".toList

/-- `cargo\s+(build|run|test|check|clippy)` matches at the front of the suffix. -/
def cargoHere (l : List Char) : Bool :=
  match stripLit cargoLit l with
  | none => false
  | some r =>
    match dropWs1 r with
    | none => false
    | some r2 => cargoAlts.any (fun a => (stripLit a r2).isSome)

/-- `git\s+(add|commit|push|pull|status|diff|log)` matches at the front of the suffix. -/
def gitHere (l : List Char) : Bool :=
  match stripLit gitLit l with
  | none => false
  | some r =>
    match dropWs1 r with
    | none => false
    | some r2 => gitAlts.any (fun a => (stripLit a r2).isSome)

/-- `(vim|nvim)\s+` matches at the front of the suffix (note: no `\b`). -/
def vimHere (l : List Char) : Bool :=
  litThenWs vimLit l || litThenWs nvimLit l

/-- `code\s+` matches at the front of the suffix (note: no `\b`). -/
def codeHere (l : List Char) : Bool :=
  litThenWs codeLit l

/-- `\bls\b` matches at the front of the suffix; `prevW` says whether the char
just before this position is a word char (false at the start of the line). -/
def lsHere (prevW : Bool) (l : List Char) : Bool :=
  !prevW &&
  match stripLit lsLit l with
  | some r =>
    match r with
    | [] => true
    | c :: _ => !isWordChar c
  | none => false

/-- `\bcd\s+` matches at the front of the suffix. -/
def cdHere (prevW : Bool) (l : List Char) : Bool :=
  !prevW && litThenWs cdLit l

/-- `\bgrep\s+` matches at the front of the suffix. -/
def grepHere (prevW : Bool) (l : List Char) : Bool :=
  !prevW && litThenWs grepLit l

/-- `\bfind\s+` matches at the front of the suffix. -/
def findHere (prevW : Bool) (l : List Char) : Bool :=
  !prevW && litThenWs findLit l

/-- `\bcat\s+` matches at the front of the suffix. -/
def catHere (prevW : Bool) (l : List Char) : Bool :=
  !prevW && litThenWs catLit l

/-- `re.search` truthiness: try the pattern at every start position, tracking
whether the previous char is a word char (needed for `\b`). -/
def searchFrom (hit : Bool → List Char → Bool) : Bool → List Char → Bool
  | prevW, [] => hit prevW []
  | prevW, c :: cs => hit prevW (c :: cs) || searchFrom hit (isWordChar c) cs

def cargoSearch (line : List Char) : Bool := searchFrom (fun _ l => cargoHere l) false line

def gitSearch (line : List Char) : Bool := searchFrom (fun _ l => gitHere l) false line

def vimSearch (line : List Char) : Bool := searchFrom (fun _ l => vimHere l) false line

def codeSearch (line : List Char) : Bool := searchFrom (fun _ l => codeHere l) false line

def lsSearch (line : List Char) : Bool := searchFrom lsHere false line

def cdSearch (line : List Char) : Bool := searchFrom cdHere false line

def grepSearch (line : List Char) : Bool := searchFrom grepHere false line

def findSearch (line : List Char) : Bool := searchFrom findHere false line

def catSearch (line : List Char) : Bool := searchFrom catHere false line

/-- The keys of the source's `command_patterns` dict.  The spec's `editor`
category is the pair `vim`/`code`; `list` is `ls`, `navigate` is `cd`,
`search-text` is `grep`, `search-files` is `find`, `read-file` is `cat`. -/
inductive Category where
  | cargo
  | git
  | vim
  | code
  | ls
  | cd
  | grep
  | find
  | cat
  deriving DecidableEq, Repr

/-- `self.command_patterns`, in dict insertion order (Python preserves it). -/
def command_patterns : List (Category × (List Char → Bool)) :=
  [(Category.cargo, cargoSearch), (Category.git, gitSearch), (Category.vim, vimSearch),
   (Category.code, codeSearch), (Category.ls, lsSearch), (Category.cd, cdSearch),
   (Category.grep, grepSearch), (Category.find, findSearch), (Category.cat, catSearch)]

/-- The classification loop of `extract_command_info`: first pattern whose
`search` fires wins; `none` when no pattern matches (line dropped). -/
def classify (line : String) : Option Category :=
  (command_patterns.find? (fun p => p.2 line.toList)).map Prod.fst

/-- Raw fields captured by the timestamp regex `\d{4}-\d{2}-\d{2}T\d{2}:\d{2}:\d{2}`
(not yet validated as a calendar date/time). -/
structure Timestamp where
  year : Nat
  month : Nat
  day : Nat
  hour : Nat
  minute : Nat
  second : Nat
  deriving DecidableEq, Repr

/-- Read exactly `n` ASCII digits (regex `\d{n}`), returning their value and the rest. -/
def readDigits : Nat → Nat → List Char → Option (Nat × List Char)
  | 0, acc, l => some (acc, l)
  | n + 1, acc, l =>
    match l with
    | [] => none
    | c :: cs => if c.isDigit then readDigits n (acc * 10 + (c.toNat - 48)) cs else none

/-- Consume one expected char. -/
def expectChar (ch : Char) : List Char → Option (List Char)
  | [] => none
  | c :: cs => if c = ch then some cs else none

/-- The timestamp regex matches at the front of this suffix, capturing its fields. -/
def tsHere (l : List Char) : Option Timestamp := do
  let (y, l) ← readDigits 4 0 l
  let l ← expectChar '-' l
  let (mo, l) ← readDigits 2 0 l
  let l ← expectChar '-' l
  let (d, l) ← readDigits 2 0 l
  let l ← expectChar 'T' l
  let (h, l) ← readDigits 2 0 l
  let l ← expectChar ':' l
  let (mi, l) ← readDigits 2 0 l
  let l ← expectChar ':' l
  let (s, _) ← readDigits 2 0 l
  some ⟨y, mo, d, h, mi, s⟩

/-- `self.timestamp_pattern.search(line)`: the leftmost match of the timestamp
regex, or `none` when no position matches. -/
def findTimestamp : List Char → Option Timestamp
  | [] => none
  | c :: cs =>
    match tsHere (c :: cs) with
    | some t => some t
    | none => findTimestamp cs

def isLeapYear (y : Nat) : Bool :=
  (y % 4 = 0 && y % 100 != 0) || y % 400 = 0

def daysInMonth (y m : Nat) : Nat :=
  if m = 2 then (if isLeapYear y then 29 else 28)
  else if m = 4 || m = 6 || m = 9 || m = 11 then 30
  else 31

/-- `datetime.fromisoformat(ts + "+00:00")` succeeds on a regex-shaped string
iff the captured fields form a valid calendar date/time (year in 1..9999,
month 1..12, day within the month, hour ≤ 23, minute ≤ 59, second ≤ 59);
otherwise it raises `ValueError`, which the source catches and skips the line. -/
def validTs (t : Timestamp) : Bool :=
  1 ≤ t.year && t.year ≤ 9999 && 1 ≤ t.month && t.month ≤ 12 &&
  1 ≤ t.day && t.day ≤ daysInMonth t.year t.month &&
  t.hour ≤ 23 && t.minute ≤ 59 && t.second ≤ 59

structure Date where
  year : Nat
  month : Nat
  day : Nat
  deriving DecidableEq, Repr

/-- `timestamp.date()`. -/
def Timestamp.date (t : Timestamp) : Date :=
  ⟨t.year, t.month, t.day⟩

/-- Python `str.strip()` (ASCII whitespace model). -/
def pyStrip (s : String) : String :=
  (((s.toList.dropWhile wsChar).reverse.dropWhile wsChar).reverse).asString

/-- One collected command occurrence (the dict built by `extract_command_info`). -/
structure LogEvent where
  timestamp : Timestamp
  command : Category
  line : String
  deriving DecidableEq, Repr

/-- `extract_command_info(line, timestamp)`: first matching pattern yields the
event record; `None` when no pattern matches. -/
def extract_command_info (line : String) (timestamp : Timestamp) : Option LogEvent :=
  (classify line).map (fun c => ⟨timestamp, c, pyStrip line⟩)

/-- The per-line body of the scan loop in `analyze_today`: extract the leftmost
timestamp-shaped substring; on regex miss, parse failure (`ValueError`), or a
date other than the target day, the line contributes nothing; otherwise
classify it. -/
def processLine (today : Date) (line : String) : Option LogEvent :=
  match findTimestamp line.toList with
  | none => none
  | some raw =>
    if validTs raw then
      if raw.date = today then extract_command_info line raw else none
    else none

/-- The whole scan loop: collected events, in file order. -/
def collectEvents (today : Date) (lines : List String) : List LogEvent :=
  lines.filterMap (processLine today)

/-- The insight strings appended by `analyze_patterns`, as tags. -/
inductive Insight where
  /-- "🔧 High git activity - active version control usage" -/
  | highGitActivity
  /-- "🦀 Multiple cargo builds - intensive Rust development" -/
  | intensiveCargo
  /-- "📝 Code editing sessions detected (n instances)" -/
  | editingSessions (n : Nat)
  /-- "🔍 High exploration activity - discovering project structure" -/
  | highExploration
  /-- "🔥 High activity day - significant development work!" -/
  | highActivity
  /-- "💪 Good productive session" -/
  | goodSession
  /-- "👍 Moderate development activity" -/
  | moderateActivity
  /-- "🌱 Light development activity" -/
  | lightActivity
  deriving DecidableEq, Repr

/-- A numeric key that orders `Timestamp`s lexicographically by
(year, month, day, hour, minute, second) whenever the fields are within their
calendar ranges — exactly the order Python uses to compare `datetime`s. -/
def tsKey (t : Timestamp) : Nat :=
  ((((t.year * 13 + t.month) * 32 + t.day) * 25 + t.hour) * 61 + t.minute) * 61 + t.second

def tsEventKey (e : LogEvent) : Nat :=
  tsKey e.timestamp

/-- Python `min(xs, key=...)` iteration: keep the current best, replace only on
a strictly smaller key — so of several minimal elements the FIRST is kept. -/
def pickMinAux {α : Type} (key : α → Nat) (best : α) : List α → α
  | [] => best
  | y :: ys => pickMinAux key (if key y < key best then y else best) ys

/-- Python `max(xs, key=...)` iteration: replace only on a strictly greater
key — so of several maximal elements the FIRST is kept. -/
def pickMaxAux {α : Type} (key : α → Nat) (best : α) : List α → α
  | [] => best
  | y :: ys => pickMaxAux key (if key best < key y then y else best) ys

/-- Line 171: `min(10.0, (total/10) + (git*0.5) + (cargo*0.8))`, over `ℚ`
(0.5 and 0.8 taken exactly). -/
def productivity_score (total git cargo : Nat) : ℚ :=
  min 10 ((total : ℚ) / 10 + (git : ℚ) * (1 / 2) + (cargo : ℚ) * (4 / 5))

/-- Lines 136–159: the insight list built from the git, cargo, editing (vim +
code), exploration (ls + find + grep) and total counts — four independent
threshold rules in order, then exactly one activity tier by first match. -/
def insightList (gitc cargoc vimc explc total : Nat) : List Insight :=
  (if gitc > 5 then [Insight.highGitActivity] else []) ++
  (if cargoc > 3 then [Insight.intensiveCargo] else []) ++
  (if vimc > 0 then [Insight.editingSessions vimc] else []) ++
  (if explc > 10 then [Insight.highExploration] else []) ++
  [if total > 100 then Insight.highActivity
   else if total > 50 then Insight.goodSession
   else if total > 20 then Insight.moderateActivity
   else Insight.lightActivity]

/-- The values `analyze_patterns` computes and prints for a non-empty command
sequence (the spec's AnalysisResult). -/
structure AnalysisResult where
  frequencyByCategory : Category → Nat
  firstEvent : LogEvent
  lastEvent : LogEvent
  insights : List Insight
  totalCount : Nat
  productivityScore : ℚ

/-- `analyze_patterns(commands)`: on an empty sequence the source prints
"No commands found" and returns early, computing nothing — modelled as `none`. -/
def analyze_patterns (commands : List LogEvent) : Option AnalysisResult :=
  match commands with
  | [] => none
  | c0 :: rest =>
    let freq : Category → Nat := fun c => (c0 :: rest).countP (fun e => e.command = c)
    let first_cmd := pickMinAux tsEventKey c0 rest
    let last_cmd := pickMaxAux tsEventKey c0 rest
    let git_count := freq Category.git
    let cargo_count := freq Category.cargo
    let vim_count := freq Category.vim + freq Category.code
    let exploration_count := freq Category.ls + freq Category.find + freq Category.grep
    let total_commands := (c0 :: rest).length
    let insights := insightList git_count cargo_count vim_count exploration_count total_commands
    some ⟨freq, first_cmd, last_cmd, insights, total_commands,
          productivity_score total_commands git_count cargo_count⟩

/-- The full pipeline of `analyze_today` on given lines (the target day is
`datetime.now().date()` in the source; here a parameter). -/
def analyze_today (today : Date) (lines : List String) : Option AnalysisResult :=
  analyze_patterns (collectEvents today lines)

/-- The two dict keys the spec groups as the `editor` category. -/
def editorCategory (c : Category) : Bool :=
  c = Category.vim || c = Category.code

/-- Spec-level reading of what the editor signature actually requires: the line
contains `vim`, `nvim` or `code` immediately followed by a whitespace char, at
any position (no word-boundary requirement). -/
def EditorSpec (line : String) : Prop :=
  ∃ lit l1 c l2, (lit = vimLit ∨ lit = nvimLit ∨ lit = codeLit) ∧
    line.toList = l1 ++ (lit ++ c :: l2) ∧ wsChar c = true

/-- Evaluation rank of each insight rule (rule 1..4, activity tier last). -/
def insightRank : Insight → Nat
  | Insight.highGitActivity => 1
  | Insight.intensiveCargo => 2
  | Insight.editingSessions _ => 3
  | Insight.highExploration => 4
  | Insight.highActivity => 5
  | Insight.goodSession => 5
  | Insight.moderateActivity => 5
  | Insight.lightActivity => 5

/-- The four mutually exclusive activity-level insights. -/
def isTier : Insight → Bool
  | Insight.highActivity => true
  | Insight.goodSession => true
  | Insight.moderateActivity => true
  | Insight.lightActivity => true
  | _ => false

/-- All nine dict keys. -/
def allCategories : List Category :=
  [Category.cargo, Category.git, Category.vim, Category.code, Category.ls,
   Category.cd, Category.grep, Category.find, Category.cat]

/-- The minimum timestamp key of an event list (0 for the empty list). -/
def minTsKey : List LogEvent → Nat
  | [] => 0
  | e :: es => es.foldl (fun m y => Nat.min m (tsEventKey y)) (tsEventKey e)

/-- The maximum timestamp key of an event list (0 for the empty list). -/
def maxTsKey : List LogEvent → Nat
  | [] => 0
  | e :: es => es.foldl (fun m y => Nat.max m (tsEventKey y)) (tsEventKey e)

/-- The spec's end-to-end scenario: target date 2025-06-30. -/
def targetDay : Date :=
  ⟨2025, 6, 30⟩

/-- The spec's end-to-end scenario input lines. -/
def scenarioLines : List String :=
  ["2025-06-30T09:00:00 git commit -m \"wip\"",
   "2025-06-30T09:05:00 cargo build",
   "2025-06-30T09:10:00 ls -la",
   "2025-07-01T09:15:00 git push"]

/-- A single editor-command event (used to instantiate the analyzer). -/
def evVim : LogEvent :=
  ⟨⟨2025, 6, 30, 9, 0, 0⟩, Category.vim, "vim notes.txt"⟩

/-- The analyzer output on the one-event sequence `[evVim]`. -/
def resVim : AnalysisResult :=
  (analyze_patterns [evVim]).get (by decide)

/-- Two events with the same timestamp, differing only in the raw line. -/
def evTieA : LogEvent :=
  ⟨⟨2025, 6, 30, 9, 0, 0⟩, Category.git, "git add a"⟩

/-- Second event of the tied pair. -/
def evTieB : LogEvent :=
  ⟨⟨2025, 6, 30, 9, 0, 0⟩, Category.git, "git add b"⟩

/-- The analyzer output on the tied two-event sequence. -/
def resTie : AnalysisResult :=
  (analyze_patterns [evTieA, evTieB]).get (by decide)

/-- A single search-text event (used to instantiate the analyzer). -/
def evGrep : LogEvent :=
  ⟨⟨2025, 6, 30, 10, 0, 0⟩, Category.grep, "grep foo bar.rs"⟩

/-- The analyzer output on the one-event sequence `[evGrep]`. -/
def resGrep : AnalysisResult :=
  (analyze_patterns [evGrep]).get (by decide)

/-- Unfolding step for the classifier's first-match loop. -/
theorem find?_pattern_cons (c : Category) (f : List Char → Bool)
    (rest : List (Category × (List Char → Bool))) (l : List Char) :
    ((c, f) :: rest).find? (fun p => p.2 l) =
      (if f l then some (c, f) else rest.find? (fun p => p.2 l)) := by
  by_cases h : f l <;> simp [List.find?_cons_of_pos, List.find?_cons_of_neg, h]

/-- C1: for every input line, the classifier evaluates the signatures in the
dict's declared order (cargo, git, vim, code, ls, cd, grep, find, cat — the
spec's editor category being the vim/code pair) and returns the category of
the first signature whose pattern matches, `none` (line dropped) when none
match; in particular `cargo build --target ./cd-utils` is classified as
cargo, never as cd (navigate). -/
theorem C1_classifier_first_match :
    (∀ line : String,
      classify line =
        (if cargoSearch line.toList then some Category.cargo
         else if gitSearch line.toList then some Category.git
         else if vimSearch line.toList then some Category.vim
         else if codeSearch line.toList then some Category.code
         else if lsSearch line.toList then some Category.ls
         else if cdSearch line.toList then some Category.cd
         else if grepSearch line.toList then some Category.grep
         else if findSearch line.toList then some Category.find
         else if catSearch line.toList then some Category.cat
         else none)) ∧
    classify ("cargo build --target ./cd-utils") = some Category.cargo := by
  refine ⟨fun line => ?_, by decide⟩
  simp only [classify, command_patterns, find?_pattern_cons, List.find?_nil]
  split_ifs <;> rfl

/-- C3: the list signature is word-boundary aware — `files.txt` is not
classified at all (in particular not as ls/list), `ls -la` is classified as
ls; `annals ok`, where ls occurs only inside a larger token, is also
unclassified. -/
theorem C3_ls_word_boundary :
    classify ("files.txt") = none ∧
    classify ("ls -la") = some Category.ls ∧
    classify ("annals ok") = none := by
  decide

/-- C7 counterexample: on the empty event sequence `analyze_patterns` returns
early with no AnalysisResult at all — it does not produce a result with
`totalCount = 0`, an empty table, one insight and score 0.0 as claimed. -/
theorem C7_empty_returns_early_cx :
    analyze_patterns [] = none := by
  rfl

/-- C7 (amended): the Analyzer applied to an event sequence produces no
AnalysisResult exactly when the sequence is empty (the source prints
"No commands found" and returns before computing anything). -/
theorem C7_empty_no_result :
    ∀ commands : List LogEvent, analyze_patterns commands = none ↔ commands = [] := by
  intro commands
  cases commands <;> simp [analyze_patterns]

/-- C8: the end-to-end scenario — four lines, the last on the following day,
with target date 2025-06-30 — yields totalCount 3, frequency git/cargo/ls = 1
(all other categories 0), first event at 09:00:00, last at 09:10:00, the
single light-activity tier insight, and productivity score
min(10, 3/10 + 0.5 + 0.8) = 1.6 = 8/5. -/
theorem C8_end_to_end_scenario :
    (analyze_today targetDay scenarioLines).map AnalysisResult.totalCount = some 3 ∧
    (analyze_today targetDay scenarioLines).map (fun r => r.frequencyByCategory Category.git) =
      some 1 ∧
    (analyze_today targetDay scenarioLines).map (fun r => r.frequencyByCategory Category.cargo) =
      some 1 ∧
    (analyze_today targetDay scenarioLines).map (fun r => r.frequencyByCategory Category.ls) =
      some 1 ∧
    (analyze_today targetDay scenarioLines).map
        (fun r => allCategories.map r.frequencyByCategory) =
      some [1, 1, 0, 0, 1, 0, 0, 0, 0] ∧
    (analyze_today targetDay scenarioLines).map (fun r => r.firstEvent.timestamp) =
      some ⟨2025, 6, 30, 9, 0, 0⟩ ∧
    (analyze_today targetDay scenarioLines).map (fun r => r.lastEvent.timestamp) =
      some ⟨2025, 6, 30, 9, 10, 0⟩ ∧
    (analyze_today targetDay scenarioLines).map AnalysisResult.insights =
      some [Insight.lightActivity] ∧
    (analyze_today targetDay scenarioLines).map AnalysisResult.productivityScore =
      some (productivity_score 3 1 1) ∧
    productivity_score 3 1 1 = 8 / 5 := by
  refine ⟨rfl, rfl, rfl, rfl, rfl, rfl, rfl, rfl, rfl, ?_⟩
  rw [productivity_score, min_eq_right (by norm_num)]
  norm_num

/-- Stripping a literal succeeds exactly on lists that extend it. -/
theorem stripLit_eq_some_iff :
    ∀ (lit l r : List Char), stripLit lit l = some r ↔ l = lit ++ r := by
  intro lit
  induction lit with
  | nil => intro l r; simp [stripLit]
  | cons p ps ih =>
    intro l r
    cases l with
    | nil => simp [stripLit]
    | cons c cs =>
      by_cases h : c = p
      · subst h
        simp [stripLit, ih]
      · simp [stripLit, h, Ne.symm h]

/-- `\s+` succeeds exactly when the suffix starts with a whitespace char. -/
theorem dropWs1_isSome_iff :
    ∀ l : List Char, (dropWs1 l).isSome = true ↔ ∃ c cs, l = c :: cs ∧ wsChar c = true := by
  intro l
  cases l with
  | nil => simp [dropWs1]
  | cons c cs => by_cases h : wsChar c <;> simp [dropWs1, h]

/-- A literal-then-whitespace pattern matches a suffix exactly when the suffix
is the literal followed by a whitespace char and anything. -/
theorem litThenWs_iff (lit l : List Char) :
    litThenWs lit l = true ↔ ∃ c cs, l = lit ++ c :: cs ∧ wsChar c = true := by
  unfold litThenWs
  cases h : stripLit lit l with
  | none =>
    simp only [Bool.false_eq_true, false_iff]
    rintro ⟨c, cs, rfl, hw⟩
    have hs : stripLit lit (lit ++ c :: cs) = some (c :: cs) :=
      (stripLit_eq_some_iff lit (lit ++ c :: cs) (c :: cs)).mpr rfl
    rw [h] at hs
    exact Option.noConfusion hs
  | some r =>
    show (dropWs1 r).isSome = true ↔ _
    rw [stripLit_eq_some_iff] at h
    subst h
    rw [dropWs1_isSome_iff]
    constructor
    · rintro ⟨c, cs, rfl, hw⟩
      exact ⟨c, cs, rfl, hw⟩
    · rintro ⟨c, cs, heq, hw⟩
      obtain rfl : r = c :: cs := List.append_cancel_left heq
      exact ⟨c, cs, rfl, hw⟩

/-- A search whose pattern ignores the word-boundary flag fires exactly when
the pattern matches at some suffix. -/
theorem searchFrom_ignoreP_iff (hit : List Char → Bool) :
    ∀ (l : List Char) (b : Bool),
      searchFrom (fun _ s => hit s) b l = true ↔ ∃ i, hit (l.drop i) = true := by
  intro l
  induction l with
  | nil => intro b; simp [searchFrom]
  | cons c cs ih =>
    intro b
    simp only [searchFrom, Bool.or_eq_true, ih]
    constructor
    · rintro (h | ⟨i, h⟩)
      · exact ⟨0, h⟩
      · exact ⟨i + 1, h⟩
    · rintro ⟨i, h⟩
      cases i with
      | zero => exact Or.inl h
      | succ j => exact Or.inr ⟨j, h⟩

/-- A pattern `lit` + `\s+` fires at some suffix iff the list decomposes around
an occurrence of `lit` followed by a whitespace char. -/
theorem exists_suffix_lit_iff (lit l : List Char) :
    (∃ i, litThenWs lit (l.drop i) = true) ↔
      ∃ l1 c l2, l = l1 ++ (lit ++ c :: l2) ∧ wsChar c = true := by
  constructor
  · rintro ⟨i, h⟩
    rw [litThenWs_iff] at h
    obtain ⟨c, cs, hd, hw⟩ := h
    refine ⟨l.take i, c, cs, ?_, hw⟩
    conv_lhs => rw [← List.take_append_drop i l]
    rw [hd]
  · rintro ⟨l1, c, l2, rfl, hw⟩
    refine ⟨l1.length, ?_⟩
    rw [List.drop_left]
    rw [litThenWs_iff]
    exact ⟨c, l2, rfl, hw⟩

/-- C2 counterexample: lines where `vim` / `code` occur only as substrings of
larger tokens (`myvim file`, `encode data`) ARE classified into the editor
categories, contrary to the whole-word claim. -/
theorem C2_editor_substring_cx :
    (classify ("myvim file")).map editorCategory = some true ∧
    (classify ("encode data")).map editorCategory = some true := by
  decide

/-- C2 (amended): the editor signature has no word-boundary anchoring — it
fires exactly when the line contains `vim`, `nvim` or `code` immediately
followed by a whitespace char, at any position, including inside larger
tokens; `vim` with nothing after it is not matched. -/
theorem C2_editor_no_word_boundary :
    (∀ line : String,
      (vimSearch line.toList || codeSearch line.toList) = true ↔ EditorSpec line) ∧
    (classify ("vim notes.txt")).map editorCategory = some true ∧
    (classify ("myvim file")).map editorCategory = some true ∧
    classify ("vim") = none := by
  refine ⟨fun line => ?_, by decide, by decide, by decide⟩
  unfold vimSearch codeSearch
  rw [Bool.or_eq_true, searchFrom_ignoreP_iff vimHere, searchFrom_ignoreP_iff codeHere]
  simp only [vimHere, codeHere, Bool.or_eq_true, exists_or, or_assoc]
  rw [exists_suffix_lit_iff vimLit, exists_suffix_lit_iff nvimLit, exists_suffix_lit_iff codeLit]
  unfold EditorSpec
  constructor
  · rintro (⟨l1, c, l2, hd, hw⟩ | ⟨l1, c, l2, hd, hw⟩ | ⟨l1, c, l2, hd, hw⟩)
    · exact ⟨vimLit, l1, c, l2, Or.inl rfl, hd, hw⟩
    · exact ⟨nvimLit, l1, c, l2, Or.inr (Or.inl rfl), hd, hw⟩
    · exact ⟨codeLit, l1, c, l2, Or.inr (Or.inr rfl), hd, hw⟩
  · rintro ⟨lit, l1, c, l2, (rfl | rfl | rfl), hd, hw⟩
    · exact Or.inl ⟨l1, c, l2, hd, hw⟩
    · exact Or.inr (Or.inl ⟨l1, c, l2, hd, hw⟩)
    · exact Or.inr (Or.inr ⟨l1, c, l2, hd, hw⟩)

/-- C4: whenever the analyzer produces a result, its productivityScore is
min(10, totalCount/10 + gitCount*0.5 + cargoCount*0.8) over the result's own
counts; the score is never negative; and any counts whose raw score reaches 10
give exactly 10. -/
theorem C4_productivity_score_formula :
    (∀ commands : List LogEvent,
      (analyze_patterns commands).map AnalysisResult.productivityScore =
        (analyze_patterns commands).map (fun r =>
          min 10 ((r.totalCount : ℚ) / 10 +
            (r.frequencyByCategory Category.git : ℚ) * (1 / 2) +
            (r.frequencyByCategory Category.cargo : ℚ) * (4 / 5)))) ∧
    (∀ total git cargo : Nat, 0 ≤ productivity_score total git cargo) ∧
    (∀ total git cargo : Nat,
      10 ≤ (total : ℚ) / 10 + (git : ℚ) * (1 / 2) + (cargo : ℚ) * (4 / 5) →
      productivity_score total git cargo = 10) := by
  refine ⟨fun commands => ?_, fun total git cargo => ?_, fun total git cargo h => ?_⟩
  · cases commands with
    | nil => rfl
    | cons c0 rest => rfl
  · unfold productivity_score
    exact le_min (by norm_num) (by positivity)
  · unfold productivity_score
    exact min_eq_left h

/-- C4 witness: the spec's own cap example, totalCount=500, gitCount=50,
cargoCount=50 (raw score 115), is capped at exactly 10. -/
theorem C4_productivity_score_formula_witness :
    productivity_score 500 50 50 = 10 :=
  C4_productivity_score_formula.2.2 500 50 50 (by norm_num)

/-- Each event is counted in exactly one category, so the nine per-category
counts sum to the sequence length. -/
theorem countP_allCategories_sum (l : List LogEvent) :
    (allCategories.map (fun c => l.countP (fun e => e.command = c))).sum = l.length := by
  induction l with
  | nil => rfl
  | cons e t ih =>
    simp only [allCategories, List.map_cons, List.map_nil, List.sum_cons, List.sum_nil,
      List.countP_cons] at ih ⊢
    cases he : e.command <;> simp [he] <;> omega

/-- C10: for every finalized event sequence with a result, the sum over all
categories of the frequency-table counts equals totalCount. -/
theorem C10_freq_total :
    ∀ (commands : List LogEvent) (r : AnalysisResult), analyze_patterns commands = some r →
      (allCategories.map r.frequencyByCategory).sum = r.totalCount := by
  intro commands r h
  cases commands with
  | nil => exact Option.noConfusion h
  | cons c0 rest =>
    simp only [analyze_patterns] at h
    obtain rfl := Option.some.inj h
    exact countP_allCategories_sum (c0 :: rest)

/-- C10 witness: the invariant evaluated on a concrete one-event run. -/
theorem C10_freq_total_witness :
    (allCategories.map resGrep.frequencyByCategory).sum = resGrep.totalCount :=
  C10_freq_total [evGrep] resGrep (Option.some_get (by decide)).symm

/-- A running minimum never exceeds its initial value. -/
theorem foldl_min_le {α : Type} (key : α → Nat) :
    ∀ (xs : List α) (a : Nat), xs.foldl (fun m y => Nat.min m (key y)) a ≤ a := by
  intro xs
  induction xs with
  | nil => intro a; exact le_refl a
  | cons y ys ih =>
    intro a
    exact le_trans (ih (Nat.min a (key y))) (Nat.min_le_left a (key y))

/-- A running maximum never drops below its initial value. -/
theorem le_foldl_max {α : Type} (key : α → Nat) :
    ∀ (xs : List α) (a : Nat), a ≤ xs.foldl (fun m y => Nat.max m (key y)) a := by
  intro xs
  induction xs with
  | nil => intro a; exact le_refl a
  | cons y ys ih =>
    intro a
    exact le_trans (Nat.le_max_left a (key y)) (ih (Nat.max a (key y)))

/-- The Python `min(..., key=...)` loop returns the first element attaining
the minimum key. -/
theorem pickMinAux_eq_find? {α : Type} (key : α → Nat) :
    ∀ (xs : List α) (b : α),
      some (pickMinAux key b xs) =
        (b :: xs).find? (fun e => key e = xs.foldl (fun m y => Nat.min m (key y)) (key b)) := by
  intro xs
  induction xs with
  | nil =>
    intro b
    simp [pickMinAux, List.find?]
  | cons y ys ih =>
    intro b
    have step : pickMinAux key b (y :: ys) =
        pickMinAux key (if key y < key b then y else b) ys := rfl
    by_cases hcmp : key y < key b
    · have hfold : (y :: ys).foldl (fun m z => Nat.min m (key z)) (key b) =
          ys.foldl (fun m z => Nat.min m (key z)) (key y) := by
        simp only [List.foldl_cons]
        congr 1
        exact Nat.min_eq_right (Nat.le_of_lt hcmp)
      have hM : ys.foldl (fun m z => Nat.min m (key z)) (key y) ≤ key y :=
        foldl_min_le key ys (key y)
      rw [step, if_pos hcmp, ih y, hfold]
      conv_rhs => rw [List.find?_cons_of_neg _ (by simp only [decide_eq_true_eq]; omega)]
    · have hfold : (y :: ys).foldl (fun m z => Nat.min m (key z)) (key b) =
          ys.foldl (fun m z => Nat.min m (key z)) (key b) := by
        simp only [List.foldl_cons]
        congr 1
        exact Nat.min_eq_left (Nat.le_of_not_lt hcmp)
      have hyb : key b ≤ key y := Nat.le_of_not_lt hcmp
      have hM : ys.foldl (fun m z => Nat.min m (key z)) (key b) ≤ key b :=
        foldl_min_le key ys (key b)
      rw [step, if_neg hcmp, ih b, hfold]
      by_cases hbM : key b = ys.foldl (fun m z => Nat.min m (key z)) (key b)
      · rw [List.find?_cons_of_pos _ (by simpa using hbM),
          List.find?_cons_of_pos _ (by simpa using hbM)]
      · rw [List.find?_cons_of_neg _ (by simp only [decide_eq_true_eq]; omega),
          List.find?_cons_of_neg _ (by simp only [decide_eq_true_eq]; omega),
          List.find?_cons_of_neg _ (by simp only [decide_eq_true_eq]; omega)]

/-- The Python `max(..., key=...)` loop returns the first element attaining
the maximum key. -/
theorem pickMaxAux_eq_find? {α : Type} (key : α → Nat) :
    ∀ (xs : List α) (b : α),
      some (pickMaxAux key b xs) =
        (b :: xs).find? (fun e => key e = xs.foldl (fun m y => Nat.max m (key y)) (key b)) := by
  intro xs
  induction xs with
  | nil =>
    intro b
    simp [pickMaxAux, List.find?]
  | cons y ys ih =>
    intro b
    have step : pickMaxAux key b (y :: ys) =
        pickMaxAux key (if key b < key y then y else b) ys := rfl
    by_cases hcmp : key b < key y
    · have hfold : (y :: ys).foldl (fun m z => Nat.max m (key z)) (key b) =
          ys.foldl (fun m z => Nat.max m (key z)) (key y) := by
        simp only [List.foldl_cons]
        congr 1
        exact Nat.max_eq_right (Nat.le_of_lt hcmp)
      have hM : key y ≤ ys.foldl (fun m z => Nat.max m (key z)) (key y) :=
        le_foldl_max key ys (key y)
      rw [step, if_pos hcmp, ih y, hfold]
      conv_rhs => rw [List.find?_cons_of_neg _ (by simp only [decide_eq_true_eq]; omega)]
    · have hfold : (y :: ys).foldl (fun m z => Nat.max m (key z)) (key b) =
          ys.foldl (fun m z => Nat.max m (key z)) (key b) := by
        simp only [List.foldl_cons]
        congr 1
        exact Nat.max_eq_left (Nat.le_of_not_lt hcmp)
      have hyb : key y ≤ key b := Nat.le_of_not_lt hcmp
      have hM : key b ≤ ys.foldl (fun m z => Nat.max m (key z)) (key b) :=
        le_foldl_max key ys (key b)
      rw [step, if_neg hcmp, ih b, hfold]
      by_cases hbM : key b = ys.foldl (fun m z => Nat.max m (key z)) (key b)
      · rw [List.find?_cons_of_pos _ (by simpa using hbM),
          List.find?_cons_of_pos _ (by simpa using hbM)]
      · rw [List.find?_cons_of_neg _ (by simp only [decide_eq_true_eq]; omega),
          List.find?_cons_of_neg _ (by simp only [decide_eq_true_eq]; omega),
          List.find?_cons_of_neg _ (by simp only [decide_eq_true_eq]; omega)]

/-- C6 counterexample: with two events carrying the same timestamp, the
source's `max(commands, key=...)` keeps the FIRST one, so lastEvent is the
earliest-position tied event, not the latest-position one as claimed. -/
theorem C6_last_event_tie_cx :
    (analyze_patterns [evTieA, evTieB]).map AnalysisResult.lastEvent = some evTieA ∧
    evTieA ≠ evTieB :=
  ⟨rfl, by decide⟩

/-- C6 (amended): firstEvent is the first event attaining the minimum
timestamp and lastEvent is the FIRST event attaining the maximum timestamp
(Python's min and max both keep the earliest tied element); the empty sequence
produces no result (both absent). -/
theorem C6_first_last_events :
    (∀ (commands : List LogEvent) (r : AnalysisResult), analyze_patterns commands = some r →
      some r.firstEvent = commands.find? (fun e => tsEventKey e = minTsKey commands) ∧
      some r.lastEvent = commands.find? (fun e => tsEventKey e = maxTsKey commands)) ∧
    analyze_patterns [] = none := by
  refine ⟨fun commands r h => ?_, rfl⟩
  cases commands with
  | nil => exact Option.noConfusion h
  | cons c0 rest =>
    simp only [analyze_patterns] at h
    obtain rfl := Option.some.inj h
    exact ⟨pickMinAux_eq_find? tsEventKey rest c0, pickMaxAux_eq_find? tsEventKey rest c0⟩

/-- C6 witness: the amended tie rule evaluated on the tied two-event run. -/
theorem C6_first_last_events_witness :
    some resTie.firstEvent =
      [evTieA, evTieB].find? (fun e => tsEventKey e = minTsKey [evTieA, evTieB]) ∧
    some resTie.lastEvent =
      [evTieA, evTieB].find? (fun e => tsEventKey e = maxTsKey [evTieA, evTieB]) :=
  C6_first_last_events.1 [evTieA, evTieB] resTie (Option.some_get (by decide)).symm

/-- `findSome?` over a mapped list. -/
theorem findSome?_map_eq {α β γ : Type} (g : α → β) (f : β → Option γ) :
    ∀ l : List α, (l.map g).findSome? f = l.findSome? (fun a => f (g a)) := by
  intro l
  induction l with
  | nil => rfl
  | cons a t ih =>
    cases h : f (g a) <;> simp [List.findSome?_cons, h, ih]

/-- The scan loop of the timestamp search visits positions left to right, so
it returns the match at the LEFTMOST matching position. -/
theorem findTimestamp_leftmost :
    ∀ l : List Char,
      findTimestamp l = (List.range (l.length + 1)).findSome? (fun i => tsHere (l.drop i)) := by
  intro l
  induction l with
  | nil => rfl
  | cons c cs ih =>
    have hr : List.range ((c :: cs).length + 1) =
        0 :: (List.range (cs.length + 1)).map Nat.succ := by
      simp [List.range_succ_eq_map]
    unfold findTimestamp
    cases h : tsHere (c :: cs) with
    | some t =>
      rw [hr]
      simp [List.findSome?_cons, h]
    | none =>
      rw [hr]
      simp only [List.findSome?_cons, List.drop_zero, h, findSome?_map_eq, List.drop_succ_cons]
      exact ih

/-- C9: the timestamp extractor considers only the first (leftmost) substring
matching the timestamp shape (the scan is `findSome?` over positions in
left-to-right order); a line with no shaped substring, or whose leftmost
shaped substring is not a valid calendar date/time (`fromisoformat` raises
`ValueError`), contributes no LogEvent and is skipped — the model is a total
function, so no fatal error is possible.  In particular a line whose LEFTMOST
match is invalid is dropped even though a valid timestamp and a matching git
command occur later in the same line. -/
theorem C9_timestamp_extraction :
    (∀ l : List Char,
      findTimestamp l = (List.range (l.length + 1)).findSome? (fun i => tsHere (l.drop i))) ∧
    (∀ (today : Date) (line : String), findTimestamp line.toList = none →
      processLine today line = none) ∧
    (∀ (today : Date) (line : String) (raw : Timestamp),
      findTimestamp line.toList = some raw → validTs raw = false →
      processLine today line = none) ∧
    processLine targetDay ("2025-13-45T09:00:00 git add x 2025-06-30T09:00:00") = none := by
  refine ⟨findTimestamp_leftmost, ?_, ?_, by decide⟩
  · intro today line h
    unfold processLine
    rw [h]
  · intro today line raw h hv
    unfold processLine
    rw [h]
    simp [hv]

/-- C9 witness: a line without any timestamp-shaped substring, and a line
whose (leftmost) timestamp-shaped substring is not a valid date, both
contribute nothing. -/
theorem C9_timestamp_extraction_witness :
    processLine targetDay ("echo hello") = none ∧
    processLine targetDay ("2025-99-99T00:00:00 ls -la") = none := by
  constructor
  · exact C9_timestamp_extraction.2.1 targetDay ("echo hello") (by decide)
  · exact C9_timestamp_extraction.2.2.1 targetDay ("2025-99-99T00:00:00 ls -la")
      ⟨2025, 99, 99, 0, 0, 0⟩ (by decide) (by decide)

set_option maxHeartbeats 1000000 in
/-- The insight rules over arbitrary counts: each rule's insight is present
iff its threshold holds, exactly one tier is present (first match on the
total), and the list is strictly ordered by rule rank. -/
theorem insightList_spec (gitc cargoc vimc explc total : Nat) :
    (Insight.highGitActivity ∈ insightList gitc cargoc vimc explc total ↔ gitc > 5) ∧
    (Insight.intensiveCargo ∈ insightList gitc cargoc vimc explc total ↔ cargoc > 3) ∧
    (∀ n, Insight.editingSessions n ∈ insightList gitc cargoc vimc explc total ↔
      (n = vimc ∧ n > 0)) ∧
    (Insight.highExploration ∈ insightList gitc cargoc vimc explc total ↔ explc > 10) ∧
    ((insightList gitc cargoc vimc explc total).countP isTier = 1) ∧
    (Insight.highActivity ∈ insightList gitc cargoc vimc explc total ↔ total > 100) ∧
    (Insight.goodSession ∈ insightList gitc cargoc vimc explc total ↔
      (total > 50 ∧ ¬total > 100)) ∧
    (Insight.moderateActivity ∈ insightList gitc cargoc vimc explc total ↔
      (total > 20 ∧ ¬total > 50)) ∧
    (Insight.lightActivity ∈ insightList gitc cargoc vimc explc total ↔ ¬total > 20) ∧
    (insightList gitc cargoc vimc explc total).Pairwise
      (fun a b => insightRank a < insightRank b) := by
  refine ⟨?_, ?_, fun n => ?_, ?_, ?_, ?_, ?_, ?_, ?_, ?_⟩ <;>
  · simp only [insightList, List.mem_append, List.countP_append]
    split_ifs <;>
      simp_all [isTier, insightRank, List.pairwise_append, List.pairwise_cons,
        List.countP_cons, List.countP_nil] <;>
      omega

/-- C5 counterexample: on the empty finalized sequence the analyzer returns
early, so there is no insight list at all and in particular no activity tier
fires, contrary to "at least one tier always fires". -/
theorem C5_empty_no_insights_cx :
    (analyze_patterns []).map AnalysisResult.insights = none :=
  rfl

/-- C5 (amended): whenever the analyzer produces a result (i.e. on every
NON-EMPTY finalized sequence; the empty one yields no insights at all), the
insight rules are independent and appended in evaluation order: membership of
each rule's insight is equivalent to its threshold over the result's own
counts (editing count = vim + code, exploration count = ls + find + grep),
exactly one activity tier is present, the tier is chosen first-match by
totalCount, and the list is strictly ordered by rule rank. -/
theorem C5_insight_rules :
    ∀ (commands : List LogEvent) (r : AnalysisResult), analyze_patterns commands = some r →
      (Insight.highGitActivity ∈ r.insights ↔ r.frequencyByCategory Category.git > 5) ∧
      (Insight.intensiveCargo ∈ r.insights ↔ r.frequencyByCategory Category.cargo > 3) ∧
      (∀ n, Insight.editingSessions n ∈ r.insights ↔
        (n = r.frequencyByCategory Category.vim + r.frequencyByCategory Category.code ∧
          n > 0)) ∧
      (Insight.highExploration ∈ r.insights ↔
        r.frequencyByCategory Category.ls + r.frequencyByCategory Category.find +
          r.frequencyByCategory Category.grep > 10) ∧
      (r.insights.countP isTier = 1) ∧
      (Insight.highActivity ∈ r.insights ↔ r.totalCount > 100) ∧
      (Insight.goodSession ∈ r.insights ↔ (r.totalCount > 50 ∧ ¬r.totalCount > 100)) ∧
      (Insight.moderateActivity ∈ r.insights ↔ (r.totalCount > 20 ∧ ¬r.totalCount > 50)) ∧
      (Insight.lightActivity ∈ r.insights ↔ ¬r.totalCount > 20) ∧
      r.insights.Pairwise (fun a b => insightRank a < insightRank b) := by
  intro commands r h
  cases commands with
  | nil => exact Option.noConfusion h
  | cons c0 rest =>
    simp only [analyze_patterns] at h
    obtain rfl := Option.some.inj h
    exact insightList_spec _ _ _ _ _

/-- C5 witness: the rules evaluated on a concrete one-editor-event run. -/
theorem C5_insight_rules_witness :
    Insight.editingSessions 1 ∈ resVim.insights ∧ resVim.insights.countP isTier = 1 ∧
    Insight.lightActivity ∈ resVim.insights := by
  have h := C5_insight_rules [evVim] resVim (Option.some_get (by decide)).symm
  refine ⟨(h.2.2.1 1).mpr (by decide), h.2.2.2.2.1, ?_⟩
  exact h.2.2.2.2.2.2.2.2.1.mpr (by decide)
